import Mathlib

/-!
Verification of the configuration-resolution engine of `pw-foundation`
(`src/config/default.config.ts`: `createConfig`, `deepMerge`;
`src/config/environments.ts`: `getEnvironment`).

JavaScript runtime values are embedded as the inductive `Value` below.
Numbers are modelled as integers (every numeric literal in the engine and
its configuration data is integral); functions are not representable — the
only place one could appear (a prototype method reached through the
`overrides.environments?.[key]` lookup) contributes no own enumerable
properties to a later merge, so the lookup returns `vundefined` there, which
yields the same resolved configuration.

JavaScript objects cannot carry duplicate keys, so theorems that quantify
over raw field lists carry `nodupKeys` hypotheses where the JS semantics
needs them.
-/

/-- JavaScript value tree: null, undefined, booleans, (integral) numbers,
strings, arrays and plain objects given as ordered association lists. -/
inductive Value where
  | vnull : Value
  | vundefined : Value
  | vbool : Bool → Value
  | vnum : Int → Value
  | vstr : String → Value
  | varr : List Value → Value
  | vobj : List (String × Value) → Value

namespace Value

/-- Keys of an object field list. -/
def keysOf (fs : List (String × Value)) : List String := fs.map Prod.fst

/-- Property read on a field list: JS `obj[k]`, `undefined` when absent. -/
def getField : List (String × Value) → String → Value
  | [], _ => .vundefined
  | (k', v) :: rest, k => if k' = k then v else getField rest k

/-- Property write on a field list: JS `obj[k] = v` (update the existing
key in place, else append). -/
def setField : List (String × Value) → String → Value → List (String × Value)
  | [], k, v => [(k, v)]
  | (k', v') :: rest, k, v =>
      if k' = k then (k, v) :: rest else (k', v') :: setField rest k v

/-- Own enumerable properties of a value, as spread by `{ ...target }` and
iterated by `for (const key in source)`: an object's fields, an array's
index/value pairs, a string's index/character pairs, and nothing for the
remaining primitives. -/
def spreadOwn : Value → List (String × Value)
  | .vobj fs => fs
  | .varr xs => xs.enum.map (fun p => (toString p.1, p.2))
  | .vstr s => s.toList.enum.map (fun p => (toString p.1, .vstr (String.mk [p.2])))
  | _ => []

/-- JS truthiness: `null`, `undefined`, `false`, `0` and `""` are falsy. -/
def truthy : Value → Bool
  | .vnull => false
  | .vundefined => false
  | .vbool b => b
  | .vnum n => n != 0
  | .vstr s => s != ""
  | .varr _ => true
  | .vobj _ => true

/-- JS `a || b`. -/
def jsOr (a b : Value) : Value := if truthy a then a else b

mutual

/-- Loop body of `deepMerge`: `result` starts as `{ ...target }` and each
own enumerable entry `(k, sv)` of the source is written into it in order,
the written value being `mergeVal result[k] sv`. -/
def deepMergeFields : List (String × Value) → List (String × Value) → List (String × Value)
  | res, [] => res
  | res, (k, sv) :: rest =>
      deepMergeFields (setField res k (mergeVal (getField res k) sv)) rest
termination_by _ src => sizeOf src
decreasing_by
  all_goals simp_wf
  all_goals omega

/-- Per-key rule of `deepMerge` (`tv` the current target value, `sv` the
source value): an array source replaces wholesale; two non-array objects
merge recursively; otherwise the source value replaces. A non-array object
source over a non-object target also lands in the replace branch, exactly
as in the JS conditional chain. -/
def mergeVal : Value → Value → Value
  | _, .varr xs => .varr xs
  | .vobj hs, .vobj gs => .vobj (deepMergeFields hs gs)
  | _, sv => sv
termination_by _ sv => sizeOf sv
decreasing_by
  all_goals simp_wf

end

/-- Model of `deepMerge(target, source)` from `src/config/default.config.ts`:
spread the target into a fresh object, then fold the source's own
enumerable entries into it. The result is always an object, whatever the
arguments are. -/
def deepMerge (target source : Value) : Value :=
  .vobj (deepMergeFields (spreadOwn target) (spreadOwn source))

/-- Canonical array-index reading of a string, as used by JS property
lookup on arrays and strings: a non-empty digit string without a leading
zero (except `"0"` itself). -/
def natKey? (s : String) : Option Nat :=
  if s.length ≠ 0 ∧ s.toList.all Char.isDigit ∧ (s = "0" ∨ s.front ≠ '0') then
    some (s.toList.foldl (fun a c => a * 10 + (c.toNat - 48)) 0)
  else none

/-- JS property access `v[k]` on the values the engine can reach: object
field, array element / `length`, string character / `length`, `undefined`
otherwise. Prototype methods are functions, which `Value` does not
represent; the lookup returns `vundefined` for them, which is merge-equivalent
(a function has no own enumerable properties). -/
def getProp : Value → String → Value
  | .vobj fs, k => getField fs k
  | .varr xs, k =>
      if k = "length" then .vnum xs.length
      else
        match natKey? k with
        | some i => (xs.get? i).getD .vundefined
        | none => .vundefined
  | .vstr s, k =>
      if k = "length" then .vnum s.length
      else
        match natKey? k with
        | some i =>
            match s.toList.get? i with
            | some c => .vstr (String.mk [c])
            | none => .vundefined
        | none => .vundefined
  | _, _ => .vundefined

/-- JS optional-chained index `v?.[k]`: short-circuits to `undefined` on
`null` or `undefined`, otherwise reads the property. -/
def optIndex (v : Value) (k : String) : Value :=
  match v with
  | .vnull => .vundefined
  | .vundefined => .vundefined
  | v => getProp v k

end Value

open Value

/-- Snapshot of the process environment variables the engine reads:
`process.env.TEST_ENV` and `process.env.CI` (`none` = unset). -/
structure ProcessEnv where
  testEnv : Option String
  ci : Option String

/-- Truthiness of `process.env.CI` (`!!process.env.CI` and the
`process.env.CI ? _ : _` conditional): set and non-empty. -/
def ciTruthy (env : ProcessEnv) : Bool :=
  match env.ci with
  | some s => s != ""
  | none => false

/-- Key used at `overrides.environments?.[process.env.TEST_ENV || '']`:
the variable when set and non-empty, otherwise the empty string. -/
def testEnvKey (env : ProcessEnv) : String :=
  match env.testEnv with
  | some s => if s = "" then "" else s
  | none => ""

/-- Model of `getEnvironment()` from `src/config/environments.ts`: the
function body is `return {};`. -/
def getEnvironment : Value := .vobj []

/-- Framework defaults object literal built inside `createConfig`,
parameterised by the truthiness of `process.env.CI` (read for `forbidOnly`
as `!!process.env.CI` and for `workers` as `process.env.CI ? 1 : undefined`)
and by the two external `@playwright/test` device descriptors
`devices['Desktop Chrome']` and `devices['Desktop Firefox']` (library data
this repository does not own); `use: { ...dc }` spreads the descriptor. -/
def defaultsConfig (ci : Bool) (dc df : Value) : Value :=
  .vobj [
    ("testDir", .vstr "./tests"),
    ("timeout", .vnum 30000),
    ("expect", .vobj [("timeout", .vnum 5000)]),
    ("fullyParallel", .vbool true),
    ("forbidOnly", .vbool ci),
    ("retries", .vnum 2),
    ("workers", if ci then .vnum 1 else .vundefined),
    ("reporter", .vstr "html"),
    ("use", .vobj [
      ("actionTimeout", .vnum 30000),
      ("baseURL", .vstr "http://localhost:3000"),
      ("trace", .vstr "on-first-retry"),
      ("screenshot", .vstr "only-on-failure"),
      ("video", .vstr "off")]),
    ("projects", .varr [
      .vobj [("name", .vstr "chromium"), ("use", .vobj (spreadOwn dc))],
      .vobj [("name", .vstr "firefox"), ("use", .vobj (spreadOwn df))]])]

/-- Overlay picked for the active environment:
`overrides.environments?.[process.env.TEST_ENV || ''] || {}`. -/
def selectOverlay (overrides : Value) (env : ProcessEnv) : Value :=
  jsOr (optIndex (getProp overrides "environments") (testEnvKey env)) (.vobj [])

/-- Projection step of `createConfig`: the destructuring
`const { environments, ...playwrightConfig } = finalWithConsumerEnv`
collects every own enumerable property except `environments` into a fresh
object. It is unconditional — there is no validation and no error path. -/
def project (v : Value) : Value :=
  .vobj ((spreadOwn v).filter (fun kv => kv.1 ≠ "environments"))

/-- Model of `createConfig(overrides)` from `src/config/default.config.ts`,
parameterised by the process-environment snapshot and the two external
device descriptors. `defineConfig` is Playwright's own wrapper around the
returned object and is modelled as the identity on the configuration tree.
JS property access on a `null`/`undefined` `overrides` would throw, but the
declared parameter type `Partial<FrameworkConfig>` (default `{}`) makes
`overrides` an object, so theorems quantify over object overrides. -/
def createConfig (dc df : Value) (env : ProcessEnv) (overrides : Value) : Value :=
  let envConfig := getEnvironment
  let consumerEnvConfig := selectOverlay overrides env
  let defaults := defaultsConfig (ciTruthy env) dc df
  let merged := deepMerge defaults overrides
  let final := deepMerge merged envConfig
  let finalWithConsumerEnv := deepMerge final consumerEnvConfig
  project finalWithConsumerEnv

namespace Value

/-- Duplicate-free keys of a field list (every real JS object satisfies
this at every level). -/
def nodupKeys : List (String × Value) → Bool
  | [] => true
  | (k, _) :: rest => !(decide (k ∈ keysOf rest)) && nodupKeys rest

mutual

/-- Structural deep equality in the sense of the spec's "deep-equals":
scalars by value, arrays element-wise in order, objects by equal key sets
with deeply equal values, insensitive to key order. -/
def deepEq : Value → Value → Bool
  | .vnull, .vnull => true
  | .vundefined, .vundefined => true
  | .vbool a, .vbool b => a = b
  | .vnum a, .vnum b => a = b
  | .vstr a, .vstr b => a = b
  | .varr xs, .varr ys => deepEqList xs ys
  | .vobj fs, .vobj gs =>
      (keysOf fs).all (fun k => decide (k ∈ keysOf gs)) &&
      ((keysOf gs).all (fun k => decide (k ∈ keysOf fs)) &&
       deepEqFields fs gs)
  | _, _ => false
termination_by a _ => sizeOf a
decreasing_by
  all_goals simp_wf

/-- Element-wise deep equality of arrays. -/
def deepEqList : List Value → List Value → Bool
  | [], [] => true
  | x :: xs, y :: ys => deepEq x y && deepEqList xs ys
  | _, _ => false
termination_by l _ => sizeOf l
decreasing_by
  all_goals simp_wf
  all_goals omega

/-- Field-wise deep equality: every field of the first list is deeply
equal to the second list's value at the same key. -/
def deepEqFields : List (String × Value) → List (String × Value) → Bool
  | [], _ => true
  | (k, v) :: rest, gs => deepEq v (getField gs k) && deepEqFields rest gs
termination_by l _ => sizeOf l
decreasing_by
  all_goals simp_wf
  all_goals omega

end

mutual

/-- Well-formed value: object keys are duplicate-free at every depth
(true of every value a JS program can build). -/
def wf : Value → Bool
  | .varr xs => wfList xs
  | .vobj fs => nodupKeys fs && wfFields fs
  | _ => true
termination_by v => sizeOf v
decreasing_by
  all_goals simp_wf

/-- Well-formedness of every element of an array. -/
def wfList : List Value → Bool
  | [] => true
  | x :: xs => wf x && wfList xs
termination_by l => sizeOf l
decreasing_by
  all_goals simp_wf
  all_goals omega

/-- Well-formedness of every value of a field list. -/
def wfFields : List (String × Value) → Bool
  | [] => true
  | (_, v) :: rest => wf v && wfFields rest
termination_by l => sizeOf l
decreasing_by
  all_goals simp_wf
  all_goals omega

end

/-- Object test mirroring `typeof v === 'object' && v !== null && !Array.isArray(v)`. -/
def isObj : Value → Bool
  | .vobj _ => true
  | _ => false

/-- Fields of an object value, empty for every other value. -/
def objFields : Value → List (String × Value)
  | .vobj fs => fs
  | _ => []

end Value

open Value in
/-- Accumulated tree of `createConfig` before projection: defaults, then
the caller override, then the autodetected layer, then the selected
environment overlay, in that order. -/
def accumulate (dc df : Value) (env : ProcessEnv) (overrides : Value) : Value :=
  deepMerge (deepMerge (deepMerge (defaultsConfig (ciTruthy env) dc df) overrides)
    getEnvironment) (selectOverlay overrides env)

open Value in
/-- Merge chain of the four layers given as field lists, in pipeline
order: defaults, override, autodetected, overlay. -/
def accChain (d o a ov : List (String × Value)) : List (String × Value) :=
  deepMergeFields (deepMergeFields (deepMergeFields d o) a) ov

open Value in
/-- Pipeline of `createConfig` with the overlay-selection key and the CI
flag as explicit parameters: the engine's only sensitivity to the process
environment is through this one `(name, ci)` snapshot. -/
def createConfigNamed (dc df : Value) (name : String) (ci : Bool) (overrides : Value) :
    Value :=
  project (deepMerge (deepMerge (deepMerge (defaultsConfig ci dc df) overrides)
    getEnvironment) (jsOr (optIndex (getProp overrides "environments") name) (.vobj [])))

open Value in
/-- Pipeline of `createConfig` with the autodetected-layer merge step
(`deepMerge(merged, envConfig)`) removed. -/
def createConfigNoAutodetect (dc df : Value) (env : ProcessEnv) (overrides : Value) :
    Value :=
  project (deepMerge (deepMerge (defaultsConfig (ciTruthy env) dc df) overrides)
    (selectOverlay overrides env))

open Value in
/-- Modelled from the spec (for comparison with the code's `project`): the
Schema Projector of spec §4.4, which removes the environments meta key but
"fails with `ProjectionError` if that key is present but its value is not
a mapping from environment name to Layer". -/
def projectSpecModel (v : Value) : Except String Value :=
  match getProp v "environments" with
  | .vundefined => .ok (project v)
  | .vobj _ => .ok (project v)
  | _ => .error "ProjectionError"

/-- Modelled from the spec (for comparison with the code's name handling):
the `activeName` resolution of spec §4.2 — "explicit call-time parameter,
then a single process-wide environment variable, then absent. Only the
first non-empty source is used." -/
def specActiveName : Option String → Option String → Option String
  | some p, ev =>
      if p = "" then
        match ev with
        | some v => if v = "" then none else some v
        | none => none
      else some p
  | none, ev =>
      match ev with
      | some v => if v = "" then none else some v
      | none => none

namespace Value

theorem getField_setField_self (fs : List (String × Value)) (k : String) (v : Value) :
    getField (setField fs k v) k = v := by
  induction fs with
  | nil => simp [setField, getField]
  | cons p rest ih =>
    obtain ⟨k', v'⟩ := p
    by_cases h : k' = k
    · subst h; simp [setField, getField]
    · simp [setField, getField, h, ih]

theorem getField_setField_ne (fs : List (String × Value)) (k q : String) (v : Value)
    (h : q ≠ k) : getField (setField fs k v) q = getField fs q := by
  have hkq : ¬ (k = q) := fun e => h e.symm
  induction fs with
  | nil => simp [setField, getField, hkq]
  | cons p rest ih =>
    obtain ⟨k', v'⟩ := p
    by_cases hk : k' = k
    · rw [hk]
      simp [setField, getField, hkq]
    · by_cases hq : k' = q
      · simp [setField, getField, hk, hq, h]
      · simp [setField, getField, hk, hq, ih]

theorem getField_eq_vundefined_of_not_mem (fs : List (String × Value)) (k : String)
    (h : k ∉ keysOf fs) : getField fs k = .vundefined := by
  induction fs with
  | nil => rfl
  | cons p rest ih =>
    obtain ⟨k', v'⟩ := p
    simp only [keysOf, List.map_cons, List.mem_cons, not_or] at h
    simp only [getField]
    rw [if_neg (fun e => h.1 e.symm)]
    exact ih h.2

theorem getField_of_mem_nodup (fs : List (String × Value)) (k : String) (v : Value)
    (hnd : nodupKeys fs = true) (hm : (k, v) ∈ fs) : getField fs k = v := by
  induction fs with
  | nil => simp at hm
  | cons p rest ih =>
    obtain ⟨k', v'⟩ := p
    simp only [nodupKeys, Bool.and_eq_true, Bool.not_eq_true', decide_eq_false_iff_not] at hnd
    rcases List.mem_cons.1 hm with h | h
    · rw [Prod.mk.injEq] at h
      obtain ⟨h1, h2⟩ := h
      subst h1
      subst h2
      simp [getField]
    · have hmem : k ∈ keysOf rest := by
        simpa [keysOf] using List.mem_map_of_mem Prod.fst h
      have hk : ¬ (k' = k) := fun e => hnd.1 (e.symm ▸ hmem)
      simp only [getField]
      rw [if_neg hk]
      exact ih hnd.2 h

theorem deepMergeFields_nil (res : List (String × Value)) :
    deepMergeFields res [] = res := by
  simp [deepMergeFields]

theorem deepMergeFields_cons (res rest : List (String × Value)) (k : String) (sv : Value) :
    deepMergeFields res ((k, sv) :: rest) =
      deepMergeFields (setField res k (mergeVal (getField res k) sv)) rest := by
  rw [deepMergeFields]

theorem mergeVal_varr (tv : Value) (xs : List Value) :
    mergeVal tv (.varr xs) = .varr xs := by
  cases tv <;> simp [mergeVal]

theorem mergeVal_vobj_vobj (hs gs : List (String × Value)) :
    mergeVal (.vobj hs) (.vobj gs) = .vobj (deepMergeFields hs gs) := by
  simp [mergeVal]

theorem mergeVal_of_src_not_obj (tv sv : Value) (h : isObj sv = false) :
    mergeVal tv sv = sv := by
  cases sv <;> cases tv <;> simp_all [mergeVal, isObj]

theorem mergeVal_of_tgt_not_obj (tv sv : Value) (h : isObj tv = false) :
    mergeVal tv sv = sv := by
  cases sv <;> cases tv <;> simp_all [mergeVal, isObj]

theorem mergeVal_vundefined (sv : Value) : mergeVal .vundefined sv = sv :=
  mergeVal_of_tgt_not_obj _ _ rfl

theorem getField_deepMergeFields_of_not_mem (gs : List (String × Value)) :
    ∀ (res : List (String × Value)) (k : String), k ∉ keysOf gs →
      getField (deepMergeFields res gs) k = getField res k := by
  induction gs with
  | nil => intro res k _; rw [deepMergeFields_nil]
  | cons p rest ih =>
    obtain ⟨k', sv⟩ := p
    intro res k hk
    simp only [keysOf, List.map_cons, List.mem_cons, not_or] at hk
    rw [deepMergeFields_cons]
    rw [ih _ _ hk.2]
    exact getField_setField_ne _ _ _ _ hk.1

theorem getField_deepMergeFields_of_mem (gs : List (String × Value)) :
    ∀ (res : List (String × Value)) (k : String),
      nodupKeys gs = true → k ∈ keysOf gs →
      getField (deepMergeFields res gs) k = mergeVal (getField res k) (getField gs k) := by
  induction gs with
  | nil => intro res k _ hk; simp [keysOf] at hk
  | cons p rest ih =>
    obtain ⟨k', sv⟩ := p
    intro res k hnd hk
    simp only [nodupKeys, Bool.and_eq_true, Bool.not_eq_true', decide_eq_false_iff_not] at hnd
    rw [deepMergeFields_cons]
    by_cases he : k = k'
    · subst he
      rw [getField_deepMergeFields_of_not_mem _ _ _ hnd.1]
      rw [getField_setField_self]
      simp [getField]
    · have hmem : k ∈ keysOf rest := by
        simp only [keysOf, List.map_cons, List.mem_cons] at hk
        exact hk.resolve_left he
      rw [ih _ _ hnd.2 hmem]
      rw [getField_setField_ne _ _ _ _ he]
      have : getField ((k', sv) :: rest) k = getField rest k := by
        simp only [getField]
        rw [if_neg (fun e => he e.symm)]
      rw [this]

theorem env_not_mem_keysOf_filter (fs : List (String × Value)) :
    "environments" ∉ keysOf (fs.filter fun kv => kv.1 ≠ "environments") := by
  intro h
  simp only [keysOf, List.mem_map] at h
  obtain ⟨kv, hkv, he⟩ := h
  rw [List.mem_filter] at hkv
  exact absurd he (by simpa using hkv.2)

theorem getField_filter_env_ne (fs : List (String × Value)) (k : String)
    (h : k ≠ "environments") :
    getField (fs.filter fun kv => kv.1 ≠ "environments") k = getField fs k := by
  induction fs with
  | nil => rfl
  | cons p rest ih =>
    obtain ⟨k', v'⟩ := p
    by_cases hk : k' = "environments"
    · subst hk
      have hne : ¬ ("environments" = k) := fun e => h e.symm
      simp only [List.filter_cons]
      rw [if_neg (by simp)]
      rw [ih]
      simp only [getField]
      rw [if_neg hne]
    · simp only [List.filter_cons]
      rw [if_pos (by simpa using hk)]
      by_cases hq : k' = k
      · simp [getField, hq]
      · simp only [getField]
        rw [if_neg hq, if_neg hq]
        exact ih

theorem sizeOf_snd_lt_of_mem_fields (fs : List (String × Value)) (k : String) (v : Value)
    (h : (k, v) ∈ fs) : sizeOf v < sizeOf fs := by
  have h1 := List.sizeOf_lt_of_mem h
  simp only [Prod.mk.sizeOf_spec] at h1
  omega

theorem wfFields_mem (fs : List (String × Value)) (k : String) (v : Value)
    (hw : wfFields fs = true) (hm : (k, v) ∈ fs) : wf v = true := by
  induction fs with
  | nil => simp at hm
  | cons p rest ih =>
    obtain ⟨k', v'⟩ := p
    have hw' : (wf v' && wfFields rest) = true := by simpa [wfFields] using hw
    rw [Bool.and_eq_true] at hw'
    rcases List.mem_cons.1 hm with h | h
    · rw [Prod.mk.injEq] at h
      rw [h.2]
      exact hw'.1
    · exact ih hw'.2 h

theorem wfList_mem (xs : List Value) (x : Value) (hw : wfList xs = true) (hm : x ∈ xs) :
    wf x = true := by
  induction xs with
  | nil => simp at hm
  | cons y rest ih =>
    have hw' : (wf y && wfList rest) = true := by simpa [wfList] using hw
    rw [Bool.and_eq_true] at hw'
    rcases List.mem_cons.1 hm with h | h
    · rw [h]; exact hw'.1
    · exact ih hw'.2 h

theorem deepEq_refl_bounded :
    ∀ (n : Nat) (v : Value), sizeOf v ≤ n → wf v = true → deepEq v v = true := by
  intro n
  induction n with
  | zero =>
    intro v hv _
    exfalso
    cases v <;> simp at hv
  | succ n ih =>
    intro v hv hwf
    cases v with
    | vnull => simp [deepEq]
    | vundefined => simp [deepEq]
    | vbool b => simp [deepEq]
    | vnum a => simp [deepEq]
    | vstr s => simp [deepEq]
    | varr xs =>
      have hxs : wfList xs = true := by simpa [wf] using hwf
      have hsz : sizeOf xs ≤ n := by
        have hs : sizeOf (Value.varr xs) = 1 + sizeOf xs := by simp
        omega
      have hstep : deepEq (.varr xs) (.varr xs) = deepEqList xs xs := by simp [deepEq]
      rw [hstep]
      have aux : ∀ ys : List Value, sizeOf ys ≤ n → wfList ys = true →
          deepEqList ys ys = true := by
        intro ys
        induction ys with
        | nil => intro _ _; simp [deepEqList]
        | cons y rest ihl =>
          intro hsy hwy
          have hw' : (wf y && wfList rest) = true := by simpa [wfList] using hwy
          rw [Bool.and_eq_true] at hw'
          have hc : sizeOf (y :: rest) = 1 + sizeOf y + sizeOf rest := by simp
          have h1 : sizeOf y ≤ n := by omega
          have h2 : sizeOf rest ≤ n := by omega
          have hstep2 : deepEqList (y :: rest) (y :: rest) =
              (deepEq y y && deepEqList rest rest) := by simp [deepEqList]
          rw [hstep2, ih y h1 hw'.1, ihl h2 hw'.2]
          rfl
      exact aux xs hsz hxs
    | vobj fs =>
      have hw' : (nodupKeys fs && wfFields fs) = true := by simpa [wf] using hwf
      rw [Bool.and_eq_true] at hw'
      have hsz : sizeOf fs ≤ n := by
        have hs : sizeOf (Value.vobj fs) = 1 + sizeOf fs := by simp
        omega
      have hstep : deepEq (.vobj fs) (.vobj fs) =
          ((keysOf fs).all (fun k => decide (k ∈ keysOf fs)) &&
           ((keysOf fs).all (fun k => decide (k ∈ keysOf fs)) &&
            deepEqFields fs fs)) := by simp [deepEq]
      rw [hstep]
      have hall : (keysOf fs).all (fun k => decide (k ∈ keysOf fs)) = true := by
        rw [List.all_eq_true]
        intro k hk
        exact decide_eq_true hk
      have aux : ∀ sub : List (String × Value), (∀ p ∈ sub, p ∈ fs) →
          deepEqFields sub fs = true := by
        intro sub
        induction sub with
        | nil => intro _; simp [deepEqFields]
        | cons q rest ihs =>
          obtain ⟨k, v⟩ := q
          intro hsub
          have hmem : (k, v) ∈ fs := hsub _ (List.mem_cons_self _ _)
          have hget : getField fs k = v := getField_of_mem_nodup _ _ _ hw'.1 hmem
          have hszv : sizeOf v ≤ n := by
            have := sizeOf_snd_lt_of_mem_fields fs k v hmem
            omega
          have hwv : wf v = true := wfFields_mem _ _ _ hw'.2 hmem
          have hstep2 : deepEqFields ((k, v) :: rest) fs =
              (deepEq v (getField fs k) && deepEqFields rest fs) := by
            simp [deepEqFields]
          rw [hstep2, hget, ih v hszv hwv,
            ihs (fun p hp => hsub p (List.mem_cons_of_mem _ hp))]
          rfl
      rw [hall, aux fs (fun p hp => hp)]
      rfl

theorem deepEq_refl (v : Value) (h : wf v = true) : deepEq v v = true :=
  deepEq_refl_bounded (sizeOf v) v (le_refl _) h

end Value

/-- C3: when the values of base and patch at a key are both objects
(non-array mappings), `deepMerge` recurses at that key with the same
rules; a key present only in the base keeps its base value, a key present
only in the patch gets the patch value; and the spec's concrete example
`merge({a:{x:1,y:2}}, {a:{y:3,z:4}})` deep-equals `{a:{x:1,y:3,z:4}}`. -/
theorem deepMerge_object_recursion :
    (∀ (base patch : List (String × Value)) (k : String)
        (bs ps : List (String × Value)),
      nodupKeys patch = true →
      getField base k = .vobj bs → getField patch k = .vobj ps →
      getField (deepMergeFields base patch) k = .vobj (deepMergeFields bs ps))
    ∧ (∀ (base patch : List (String × Value)) (q : String),
        nodupKeys patch = true →
        (q ∉ keysOf patch →
          getField (deepMergeFields base patch) q = getField base q)
        ∧ (q ∈ keysOf patch → q ∉ keysOf base →
            getField (deepMergeFields base patch) q = getField patch q))
    ∧ deepEq
        (deepMerge (.vobj [("a", .vobj [("x", .vnum 1), ("y", .vnum 2)])])
          (.vobj [("a", .vobj [("y", .vnum 3), ("z", .vnum 4)])]))
        (.vobj [("a", .vobj [("x", .vnum 1), ("y", .vnum 3), ("z", .vnum 4)])])
      = true := by
  refine ⟨?_, ?_, ?_⟩
  · intro base patch k bs ps hnd hbase hpatch
    have hk : k ∈ keysOf patch := by
      by_contra hc
      rw [getField_eq_vundefined_of_not_mem _ _ hc] at hpatch
      exact Value.noConfusion hpatch
    rw [getField_deepMergeFields_of_mem _ _ _ hnd hk, hbase, hpatch, mergeVal_vobj_vobj]
  · intro base patch q hnd
    constructor
    · intro hq
      exact getField_deepMergeFields_of_not_mem _ _ _ hq
    · intro hq hqb
      rw [getField_deepMergeFields_of_mem _ _ _ hnd hq,
        getField_eq_vundefined_of_not_mem _ _ hqb, mergeVal_vundefined]
  · simp [Value.deepMerge, spreadOwn, deepMergeFields, mergeVal, getField, setField,
      deepEq, deepEqList, deepEqFields, keysOf]

/-- Closed instance of `deepMerge_object_recursion`: the recursion clause
applied to `merge({a:{x:1}}, {a:{y:2}})` at key `a`. -/
theorem deepMerge_object_recursion_witness :
    getField (deepMergeFields [("a", Value.vobj [("x", Value.vnum 1)])]
        [("a", Value.vobj [("y", Value.vnum 2)])]) "a"
      = .vobj (deepMergeFields [("x", Value.vnum 1)] [("y", Value.vnum 2)]) :=
  deepMerge_object_recursion.1 [("a", Value.vobj [("x", Value.vnum 1)])]
    [("a", Value.vobj [("y", Value.vnum 2)])] "a" _ _ (by decide) rfl rfl

/-- C4: whenever the patch holds an array at a key, the merged value at
that key is exactly that array, whatever the base holds there; and the
spec's concrete example `merge({k:[1,2,3]}, {k:[9]}).k` deep-equals `[9]`. -/
theorem deepMerge_array_atomicity :
    (∀ (base patch : List (String × Value)) (k : String) (xs : List Value),
      nodupKeys patch = true → getField patch k = .varr xs →
      getField (deepMergeFields base patch) k = .varr xs)
    ∧ deepEq
        (getProp (deepMerge (.vobj [("k", .varr [.vnum 1, .vnum 2, .vnum 3])])
          (.vobj [("k", .varr [.vnum 9])])) "k")
        (.varr [.vnum 9]) = true := by
  constructor
  · intro base patch k xs hnd hpatch
    have hk : k ∈ keysOf patch := by
      by_contra hc
      rw [getField_eq_vundefined_of_not_mem _ _ hc] at hpatch
      exact Value.noConfusion hpatch
    rw [getField_deepMergeFields_of_mem _ _ _ hnd hk, hpatch, mergeVal_varr]
  · simp [Value.deepMerge, spreadOwn, deepMergeFields, mergeVal, getField, setField,
      deepEq, deepEqList, deepEqFields, keysOf, Value.getProp]

/-- Closed instance of `deepMerge_array_atomicity`: a patch array at key
`k` lands unchanged in the merge result over an object base value. -/
theorem deepMerge_array_atomicity_witness :
    getField (deepMergeFields [("k", Value.vobj [("x", Value.vnum 7)])]
        [("k", Value.varr [Value.vnum 9])]) "k" = .varr [Value.vnum 9] :=
  deepMerge_array_atomicity.1 [("k", Value.vobj [("x", Value.vnum 7)])]
    [("k", Value.varr [Value.vnum 9])] "k" [Value.vnum 9] (by decide) rfl

/-- C5 counterexample: the claimed identity `merge(x, {})` deep-equals `x`
fails for a scalar root and for an array root — `{ ...target }` spreads
them into a plain object, so `merge(5, {})` is `{}` and
`merge([1,2], {})` is `{"0":1,"1":2}`, neither deep-equal to its input. -/
theorem merge_empty_patch_counterexample :
    deepEq (deepMerge (.vnum 5) (.vobj [])) (.vnum 5) = false
    ∧ deepEq (deepMerge (.varr [.vnum 1, .vnum 2]) (.vobj []))
        (.varr [.vnum 1, .vnum 2]) = false
    ∧ deepMerge (.vnum 5) (.vobj []) = .vobj [] := by
  refine ⟨?_, ?_, ?_⟩ <;>
    simp [Value.deepMerge, spreadOwn, deepMergeFields, deepEq, deepEqList,
      deepEqFields, getField, keysOf]

/-- C5 as amended: the empty patch is a right identity at object roots —
for every object `x`, `merge(x, {})` returns `x`'s fields unchanged, hence
a tree deep-equal to `x` whenever `x` is a well-formed JS object. -/
theorem merge_empty_patch_identity :
    (∀ fs : List (String × Value), deepMerge (.vobj fs) (.vobj []) = .vobj fs)
    ∧ (∀ fs : List (String × Value), wf (.vobj fs) = true →
        deepEq (deepMerge (.vobj fs) (.vobj [])) (.vobj fs) = true) := by
  have h1 : ∀ fs : List (String × Value), deepMerge (.vobj fs) (.vobj []) = .vobj fs := by
    intro fs
    simp [Value.deepMerge, spreadOwn, deepMergeFields_nil]
  refine ⟨h1, ?_⟩
  intro fs hwf
  rw [h1 fs]
  exact deepEq_refl _ hwf

/-- Closed instance of `merge_empty_patch_identity` at a concrete
well-formed object. -/
theorem merge_empty_patch_identity_witness :
    wf (Value.vobj [("a", Value.vnum 1), ("b", Value.vstr "x")]) = true
    ∧ deepEq (deepMerge (.vobj [("a", Value.vnum 1), ("b", Value.vstr "x")]) (.vobj []))
        (.vobj [("a", Value.vnum 1), ("b", Value.vstr "x")]) = true :=
  ⟨by simp [wf, wfFields, nodupKeys, keysOf],
   merge_empty_patch_identity.2 [("a", Value.vnum 1), ("b", Value.vstr "x")]
     (by simp [wf, wfFields, nodupKeys, keysOf])⟩

/-- C6 counterexample: a non-object patch at the root is not a full
replacement — `merge({a:1}, 5)` returns the base copy `{a:1}`, not `5`
(`for...in` over a number iterates nothing, so nothing of the patch is
written). -/
theorem merge_non_object_patch_counterexample :
    deepMerge (.vobj [("a", Value.vnum 1)]) (.vnum 5) = .vobj [("a", Value.vnum 1)]
    ∧ deepEq (deepMerge (.vobj [("a", Value.vnum 1)]) (.vnum 5)) (.vnum 5) = false := by
  constructor <;>
    simp [Value.deepMerge, spreadOwn, deepMergeFields, deepEq, deepEqList,
      deepEqFields, getField, keysOf]

/-- C6 as amended: a `null`, `undefined`, boolean or numeric patch at the
root contributes no own enumerable entries, so `merge(base, patch)` is the
object spread of `base` with the patch ignored (in particular the base's
own copy when `base` is an object) — defined behavior, no error raised. -/
theorem merge_non_object_patch_ignored :
    (∀ base : Value, deepMerge base .vnull = .vobj (spreadOwn base))
    ∧ (∀ base : Value, deepMerge base .vundefined = .vobj (spreadOwn base))
    ∧ (∀ (base : Value) (b : Bool), deepMerge base (.vbool b) = .vobj (spreadOwn base))
    ∧ (∀ (base : Value) (n : Int), deepMerge base (.vnum n) = .vobj (spreadOwn base))
    ∧ (∀ (fs : List (String × Value)) (n : Int),
        deepMerge (.vobj fs) (.vnum n) = .vobj fs) := by
  refine ⟨?_, ?_, ?_, ?_, ?_⟩ <;>
    intros <;>
    simp [Value.deepMerge, spreadOwn, deepMergeFields_nil]

theorem createConfig_eq_project_accumulate (dc df : Value) (env : ProcessEnv)
    (overrides : Value) :
    createConfig dc df env overrides = project (accumulate dc df env overrides) := rfl

theorem project_vobj (L : List (String × Value)) :
    project (.vobj L) = .vobj (L.filter fun kv => kv.1 ≠ "environments") := rfl

theorem accumulate_is_vobj (dc df : Value) (env : ProcessEnv) (overrides : Value) :
    accumulate dc df env overrides = .vobj (objFields (accumulate dc df env overrides)) := rfl

/-- C1 counterexample: an accumulated tree whose `environments` key holds
the non-mapping value `5` is projected successfully — the code's
destructuring just drops the key — while the spec's projector demands a
`ProjectionError` there; the full pipeline likewise returns normally on an
`environments: 5` override. No error path exists in `createConfig`. -/
theorem projection_no_error_counterexample :
    project (.vobj [("environments", Value.vnum 5), ("retries", Value.vnum 1)])
      = .vobj [("retries", Value.vnum 1)]
    ∧ projectSpecModel (.vobj [("environments", Value.vnum 5), ("retries", Value.vnum 1)])
      = Except.error "ProjectionError"
    ∧ getProp (createConfig (.vobj []) (.vobj []) ⟨none, none⟩
        (.vobj [("environments", Value.vnum 5)])) "environments" = .vundefined
    ∧ getProp (createConfig (.vobj []) (.vobj []) ⟨none, none⟩
        (.vobj [("environments", Value.vnum 5)])) "retries" = .vnum 2 := by
  refine ⟨?_, ?_, ?_, ?_⟩ <;>
    simp [createConfig, selectOverlay, project, projectSpecModel, getEnvironment,
      defaultsConfig, testEnvKey, ciTruthy, Value.deepMerge, spreadOwn,
      deepMergeFields, mergeVal, getField, setField, Value.getProp, Value.optIndex,
      jsOr, truthy]

/-- C1 as amended: the projection step never fails — for every accumulated
object it unconditionally removes the top-level `environments` key,
whatever value that key holds (mapping or not), and returns every other
key's value unchanged; projection succeeds in every case. -/
theorem projection_unconditional :
    ∀ (fs : List (String × Value)) (k : String), k ≠ "environments" →
      "environments" ∉ keysOf (objFields (project (.vobj fs)))
      ∧ getProp (project (.vobj fs)) k = getField fs k := by
  intro fs k hk
  constructor
  · exact env_not_mem_keysOf_filter fs
  · show getField (fs.filter fun kv => kv.1 ≠ "environments") k = getField fs k
    exact getField_filter_env_ne fs k hk

/-- Closed instance of `projection_unconditional` at an accumulated tree
holding the non-mapping value `5` under `environments`. -/
theorem projection_unconditional_witness :
    "environments" ∉ keysOf (objFields (project
        (.vobj [("environments", Value.vnum 5), ("retries", Value.vnum 1)])))
    ∧ getProp (project (.vobj [("environments", Value.vnum 5), ("retries", Value.vnum 1)]))
        "retries"
      = getField [("environments", Value.vnum 5), ("retries", Value.vnum 1)] "retries" :=
  projection_unconditional [("environments", Value.vnum 5), ("retries", Value.vnum 1)]
    "retries" (by decide)

/-- C9: for every choice of device descriptors, process environment,
object override (whatever `environments` overlay map it embeds) and active
name, the resolved configuration has no `environments` key, and projection
changes nothing else: every other key holds exactly the accumulated
tree's value. -/
theorem resolved_config_never_has_environments :
    ∀ (dc df : Value) (env : ProcessEnv) (ofs : List (String × Value)) (k : String),
      "environments" ∉ keysOf (objFields (createConfig dc df env (.vobj ofs)))
      ∧ (k ≠ "environments" →
          getProp (createConfig dc df env (.vobj ofs)) k
            = getProp (accumulate dc df env (.vobj ofs)) k) := by
  intro dc df env ofs k
  constructor
  · exact env_not_mem_keysOf_filter _
  · intro hk
    show getField ((objFields (accumulate dc df env (.vobj ofs))).filter
        fun kv => kv.1 ≠ "environments") k = _
    exact getField_filter_env_ne _ k hk

/-- Closed instance of `resolved_config_never_has_environments` at a
concrete override carrying an overlay map. -/
theorem resolved_config_never_has_environments_witness :
    "environments" ∉ keysOf (objFields (createConfig (.vobj []) (.vobj [])
        ⟨some "prod", none⟩
        (.vobj [("environments", Value.vobj [("prod", Value.vobj [])])])))
    ∧ getProp (createConfig (.vobj []) (.vobj []) ⟨some "prod", none⟩
          (.vobj [("environments", Value.vobj [("prod", Value.vobj [])])])) "retries"
        = getProp (accumulate (.vobj []) (.vobj []) ⟨some "prod", none⟩
          (.vobj [("environments", Value.vobj [("prod", Value.vobj [])])])) "retries" :=
  ⟨(resolved_config_never_has_environments (.vobj []) (.vobj []) ⟨some "prod", none⟩
      [("environments", Value.vobj [("prod", Value.vobj [])])] "retries").1,
   (resolved_config_never_has_environments (.vobj []) (.vobj []) ⟨some "prod", none⟩
      [("environments", Value.vobj [("prod", Value.vobj [])])] "retries").2 (by decide)⟩

theorem deepMerge_vobj_nil (fs : List (String × Value)) :
    deepMerge (.vobj fs) (.vobj []) = .vobj fs := by
  simp [Value.deepMerge, spreadOwn, deepMergeFields_nil]

theorem deepMerge_deepMerge_nil (x y : Value) :
    deepMerge (deepMerge x y) (.vobj []) = deepMerge x y :=
  deepMerge_vobj_nil (deepMergeFields (spreadOwn x) (spreadOwn y))

/-- C2: `createConfig` accumulates defaults, then the caller override,
then the autodetected layer, then the selected environment overlay, and
returns the projection of that accumulator; and in the four-layer chain a
later layer wins at every conflicting key whose later value is atomic (an
array, scalar, null or undefined — object-valued conflicts merge
recursively per the merge rules), cascading overlay over autodetected over
override over defaults. -/
theorem createConfig_layer_order :
    (∀ (dc df : Value) (env : ProcessEnv) (o : Value),
      createConfig dc df env o =
        project (deepMerge (deepMerge (deepMerge (defaultsConfig (ciTruthy env) dc df) o)
          getEnvironment) (selectOverlay o env)))
    ∧ (∀ (d o a ov : List (String × Value)) (k : String),
        (nodupKeys ov = true → k ∈ keysOf ov → isObj (getField ov k) = false →
          getField (accChain d o a ov) k = getField ov k)
        ∧ (nodupKeys a = true → k ∉ keysOf ov → k ∈ keysOf a →
            isObj (getField a k) = false →
            getField (accChain d o a ov) k = getField a k)
        ∧ (nodupKeys o = true → k ∉ keysOf ov → k ∉ keysOf a → k ∈ keysOf o →
            isObj (getField o k) = false →
            getField (accChain d o a ov) k = getField o k)
        ∧ (k ∉ keysOf ov → k ∉ keysOf a → k ∉ keysOf o →
            getField (accChain d o a ov) k = getField d k)) := by
  constructor
  · intro dc df env o
    rfl
  · intro d o a ov k
    refine ⟨?_, ?_, ?_, ?_⟩
    · intro hnd hk hobj
      show getField (deepMergeFields (deepMergeFields (deepMergeFields d o) a) ov) k = _
      rw [getField_deepMergeFields_of_mem _ _ _ hnd hk]
      exact mergeVal_of_src_not_obj _ _ hobj
    · intro hnd hov hk hobj
      show getField (deepMergeFields (deepMergeFields (deepMergeFields d o) a) ov) k = _
      rw [getField_deepMergeFields_of_not_mem _ _ _ hov,
        getField_deepMergeFields_of_mem _ _ _ hnd hk]
      exact mergeVal_of_src_not_obj _ _ hobj
    · intro hnd hov ha hk hobj
      show getField (deepMergeFields (deepMergeFields (deepMergeFields d o) a) ov) k = _
      rw [getField_deepMergeFields_of_not_mem _ _ _ hov,
        getField_deepMergeFields_of_not_mem _ _ _ ha,
        getField_deepMergeFields_of_mem _ _ _ hnd hk]
      exact mergeVal_of_src_not_obj _ _ hobj
    · intro hov ha ho
      show getField (deepMergeFields (deepMergeFields (deepMergeFields d o) a) ov) k = _
      rw [getField_deepMergeFields_of_not_mem _ _ _ hov,
        getField_deepMergeFields_of_not_mem _ _ _ ha,
        getField_deepMergeFields_of_not_mem _ _ _ ho]

/-- Closed instance of `createConfig_layer_order`: with all four layers
setting key `t`, the overlay's scalar wins. -/
theorem createConfig_layer_order_witness :
    getField (accChain [("t", Value.vnum 1)] [("t", Value.vnum 2)]
        [("t", Value.vnum 3)] [("t", Value.vnum 4)]) "t"
      = getField [("t", Value.vnum 4)] "t" :=
  (createConfig_layer_order.2 [("t", Value.vnum 1)] [("t", Value.vnum 2)]
      [("t", Value.vnum 3)] [("t", Value.vnum 4)] "t").1
    (by decide) (by decide) (by decide)

/-- C7 counterexample: the overlays map `{"": {retries: 99}}` breaks the
claim — with `TEST_ENV` unset (`activeName` absent) the code looks the
overlay up under the key `''`, finds the empty-string entry and applies
it, so the selection is not the empty Layer and resolving with the
non-matching name `"prod"` is not deep-equal to resolving with no name. -/
theorem missing_overlay_counterexample :
    selectOverlay
        (.vobj [("environments",
          Value.vobj [("", Value.vobj [("retries", Value.vnum 99)])])]) ⟨none, none⟩
      = .vobj [("retries", Value.vnum 99)]
    ∧ deepEq
        (createConfig (.vobj []) (.vobj []) ⟨some "prod", none⟩
          (.vobj [("environments",
            Value.vobj [("", Value.vobj [("retries", Value.vnum 99)])])]))
        (createConfig (.vobj []) (.vobj []) ⟨none, none⟩
          (.vobj [("environments",
            Value.vobj [("", Value.vobj [("retries", Value.vnum 99)])])]))
      = false := by
  constructor <;>
    simp [createConfig, selectOverlay, project, getEnvironment, defaultsConfig,
      testEnvKey, ciTruthy, Value.deepMerge, spreadOwn, deepMergeFields, mergeVal,
      getField, setField, Value.getProp, Value.optIndex, jsOr, truthy,
      deepEq, deepEqList, deepEqFields, keysOf]

/-- C7 as amended: when the name the code actually looks up — the explicit
name, or the empty string when the name is absent — matches no key of the
overlays map, the selection yields the empty Layer, the overlay merge is a
no-op on the accumulator, and resolving with the non-matching name equals
resolving with no name at all; the same holds when the override carries no
`environments` key. Absence never raises an error. The caveat forced by
the counterexample: the overlays map must have no empty-string key for the
absent case to coincide. -/
theorem missing_overlay_noop :
    (∀ (dc df : Value) (ci : Option String) (n : String)
        (ofs envs : List (String × Value)),
      getField ofs "environments" = .vobj envs →
      n ∉ keysOf envs → "" ∉ keysOf envs →
      selectOverlay (.vobj ofs) ⟨some n, ci⟩ = .vobj []
      ∧ selectOverlay (.vobj ofs) ⟨none, ci⟩ = .vobj []
      ∧ accumulate dc df ⟨some n, ci⟩ (.vobj ofs)
          = deepMerge (deepMerge (defaultsConfig (ciTruthy ⟨some n, ci⟩) dc df)
              (.vobj ofs)) getEnvironment
      ∧ createConfig dc df ⟨some n, ci⟩ (.vobj ofs)
          = createConfig dc df ⟨none, ci⟩ (.vobj ofs))
    ∧ (∀ (dc df : Value) (ci : Option String) (n : String)
        (ofs : List (String × Value)),
      getField ofs "environments" = .vundefined →
      selectOverlay (.vobj ofs) ⟨some n, ci⟩ = .vobj []
      ∧ createConfig dc df ⟨some n, ci⟩ (.vobj ofs)
          = createConfig dc df ⟨none, ci⟩ (.vobj ofs)) := by
  constructor
  · intro dc df ci n ofs envs henv hn hempty
    have hsome : selectOverlay (.vobj ofs) ⟨some n, ci⟩ = .vobj [] := by
      show jsOr (optIndex (getField ofs "environments") (testEnvKey ⟨some n, ci⟩))
        (.vobj []) = .vobj []
      rw [henv]
      by_cases he : n = ""
      · have : testEnvKey ⟨some n, ci⟩ = "" := by simp [testEnvKey, he]
        rw [this]
        show jsOr (getField envs "") (.vobj []) = .vobj []
        rw [getField_eq_vundefined_of_not_mem _ _ hempty]
        rfl
      · have : testEnvKey ⟨some n, ci⟩ = n := by simp [testEnvKey, he]
        rw [this]
        show jsOr (getField envs n) (.vobj []) = .vobj []
        rw [getField_eq_vundefined_of_not_mem _ _ hn]
        rfl
    have hnone : selectOverlay (.vobj ofs) ⟨none, ci⟩ = .vobj [] := by
      show jsOr (optIndex (getField ofs "environments") (testEnvKey ⟨none, ci⟩))
        (.vobj []) = .vobj []
      rw [henv]
      show jsOr (getField envs "") (.vobj []) = .vobj []
      rw [getField_eq_vundefined_of_not_mem _ _ hempty]
      rfl
    refine ⟨hsome, hnone, ?_, ?_⟩
    · show deepMerge (deepMerge (deepMerge (defaultsConfig (ciTruthy ⟨some n, ci⟩) dc df)
          (.vobj ofs)) getEnvironment) (selectOverlay (.vobj ofs) ⟨some n, ci⟩) = _
      rw [hsome]
      exact deepMerge_deepMerge_nil _ _
    · rw [createConfig_eq_project_accumulate, createConfig_eq_project_accumulate]
      show project (deepMerge (deepMerge (deepMerge
          (defaultsConfig (ciTruthy ⟨some n, ci⟩) dc df) (.vobj ofs)) getEnvironment)
          (selectOverlay (.vobj ofs) ⟨some n, ci⟩)) = _
      rw [hsome]
      show _ = project (deepMerge (deepMerge (deepMerge
          (defaultsConfig (ciTruthy ⟨none, ci⟩) dc df) (.vobj ofs)) getEnvironment)
          (selectOverlay (.vobj ofs) ⟨none, ci⟩))
      rw [hnone]
      rfl
  · intro dc df ci n ofs henv
    have hsome : selectOverlay (.vobj ofs) ⟨some n, ci⟩ = .vobj [] := by
      show jsOr (optIndex (getField ofs "environments") (testEnvKey ⟨some n, ci⟩))
        (.vobj []) = .vobj []
      rw [henv]
      rfl
    have hnone : selectOverlay (.vobj ofs) ⟨none, ci⟩ = .vobj [] := by
      show jsOr (optIndex (getField ofs "environments") (testEnvKey ⟨none, ci⟩))
        (.vobj []) = .vobj []
      rw [henv]
      rfl
    refine ⟨hsome, ?_⟩
    rw [createConfig_eq_project_accumulate, createConfig_eq_project_accumulate]
    show project (deepMerge (deepMerge (deepMerge
        (defaultsConfig (ciTruthy ⟨some n, ci⟩) dc df) (.vobj ofs)) getEnvironment)
        (selectOverlay (.vobj ofs) ⟨some n, ci⟩)) = _
    rw [hsome]
    show _ = project (deepMerge (deepMerge (deepMerge
        (defaultsConfig (ciTruthy ⟨none, ci⟩) dc df) (.vobj ofs)) getEnvironment)
        (selectOverlay (.vobj ofs) ⟨none, ci⟩))
    rw [hnone]
    rfl

/-- Closed instance of `missing_overlay_noop`: with overlays `{prod: ...}`
and the non-matching name `dev`, the selection is empty and the resolve
equals the nameless resolve. -/
theorem missing_overlay_noop_witness :
    selectOverlay (.vobj [("environments",
        Value.vobj [("prod", Value.vobj [("retries", Value.vnum 7)])])])
        ⟨some "dev", none⟩ = .vobj []
    ∧ selectOverlay (.vobj [("environments",
        Value.vobj [("prod", Value.vobj [("retries", Value.vnum 7)])])])
        ⟨none, none⟩ = .vobj []
    ∧ accumulate (.vobj []) (.vobj []) ⟨some "dev", none⟩
        (.vobj [("environments",
          Value.vobj [("prod", Value.vobj [("retries", Value.vnum 7)])])])
      = deepMerge (deepMerge (defaultsConfig (ciTruthy ⟨some "dev", none⟩)
          (.vobj []) (.vobj []))
          (.vobj [("environments",
            Value.vobj [("prod", Value.vobj [("retries", Value.vnum 7)])])]))
          getEnvironment
    ∧ createConfig (.vobj []) (.vobj []) ⟨some "dev", none⟩
        (.vobj [("environments",
          Value.vobj [("prod", Value.vobj [("retries", Value.vnum 7)])])])
      = createConfig (.vobj []) (.vobj []) ⟨none, none⟩
        (.vobj [("environments",
          Value.vobj [("prod", Value.vobj [("retries", Value.vnum 7)])])]) :=
  missing_overlay_noop.1 (.vobj []) (.vobj []) none "dev"
    [("environments", Value.vobj [("prod", Value.vobj [("retries", Value.vnum 7)])])]
    [("prod", Value.vobj [("retries", Value.vnum 7)])]
    rfl (by decide) (by decide)

/-- C8 counterexample: with no call-time parameter in the API and
`TEST_ENV` set to the empty string, every source of the claimed precedence
is empty, so the claim resolves the active name to absent; but the code
uses the empty value as the overlay lookup key — the `""` overlay is
applied (`retries` becomes 99), unlike a genuinely non-matching name
(`retries` stays 2). The empty source is used, contradicting "only the
first non-empty source is used ... then absent". -/
theorem active_name_resolution_counterexample :
    specActiveName none (some "") = none
    ∧ testEnvKey ⟨some "", none⟩ = ""
    ∧ getProp (createConfig (.vobj []) (.vobj []) ⟨some "", none⟩
        (.vobj [("environments",
          Value.vobj [("", Value.vobj [("retries", Value.vnum 99)])])])) "retries"
      = .vnum 99
    ∧ getProp (createConfig (.vobj []) (.vobj []) ⟨some "missing", none⟩
        (.vobj [("environments",
          Value.vobj [("", Value.vobj [("retries", Value.vnum 99)])])])) "retries"
      = .vnum 2 := by
  refine ⟨rfl, rfl, ?_, ?_⟩ <;>
    simp [createConfig, selectOverlay, project, getEnvironment, defaultsConfig,
      testEnvKey, ciTruthy, Value.deepMerge, spreadOwn, deepMergeFields, mergeVal,
      getField, setField, Value.getProp, Value.optIndex, jsOr, truthy]

/-- C8 as amended: the active environment name is resolved solely from the
single process-wide `TEST_ENV` variable — there is no call-time parameter
— with an unset or empty variable mapped to the empty string and used as
the overlay lookup key; the `(name, CI)` snapshot is taken once per call,
and the result depends on the process environment only through that
snapshot. -/
theorem active_name_from_env_only :
    (∀ (dc df : Value) (env : ProcessEnv) (o : Value),
      createConfig dc df env o
        = createConfigNamed dc df (testEnvKey env) (ciTruthy env) o)
    ∧ (∀ (dc df : Value) (env env' : ProcessEnv) (o : Value),
        testEnvKey env = testEnvKey env' → ciTruthy env = ciTruthy env' →
        createConfig dc df env o = createConfig dc df env' o) := by
  have h1 : ∀ (dc df : Value) (env : ProcessEnv) (o : Value),
      createConfig dc df env o
        = createConfigNamed dc df (testEnvKey env) (ciTruthy env) o := by
    intro dc df env o
    rfl
  refine ⟨h1, ?_⟩
  intro dc df env env' o ht hc
  rw [h1, h1, ht, hc]

/-- Closed instance of `active_name_from_env_only`: an empty `TEST_ENV`
and an unset one form the same snapshot, hence the same configuration. -/
theorem active_name_from_env_only_witness :
    testEnvKey ⟨some "", some "1"⟩ = testEnvKey ⟨none, some "1"⟩
    ∧ ciTruthy ⟨some "", some "1"⟩ = ciTruthy ⟨none, some "1"⟩
    ∧ createConfig (.vobj []) (.vobj []) ⟨some "", some "1"⟩
        (.vobj [("retries", Value.vnum 5)])
      = createConfig (.vobj []) (.vobj []) ⟨none, some "1"⟩
        (.vobj [("retries", Value.vnum 5)]) :=
  ⟨rfl, rfl,
   active_name_from_env_only.2 (.vobj []) (.vobj []) ⟨some "", some "1"⟩
     ⟨none, some "1"⟩ (.vobj [("retries", Value.vnum 5)]) rfl rfl⟩

/-- C10: `getEnvironment()` returns the empty object, merging it is the
identity on the accumulator (`deepMerge(merged, envConfig)` returns a tree
equal to `merged`), and `createConfig` coincides extensionally with the
same pipeline with the autodetected-merge step removed — the resolved
configuration never depends on the autodetected layer. -/
theorem autodetected_layer_inert :
    getEnvironment = .vobj []
    ∧ (∀ fs : List (String × Value), deepMerge (.vobj fs) getEnvironment = .vobj fs)
    ∧ (∀ x y : Value, deepMerge (deepMerge x y) getEnvironment = deepMerge x y)
    ∧ (∀ (dc df : Value) (env : ProcessEnv) (o : Value),
        createConfig dc df env o = createConfigNoAutodetect dc df env o) := by
  refine ⟨rfl, ?_, ?_, ?_⟩
  · intro fs
    exact deepMerge_vobj_nil fs
  · intro x y
    exact deepMerge_deepMerge_nil x y
  · intro dc df env o
    show project (deepMerge (deepMerge (deepMerge (defaultsConfig (ciTruthy env) dc df) o)
        getEnvironment) (selectOverlay o env))
      = project (deepMerge (deepMerge (defaultsConfig (ciTruthy env) dc df) o)
        (selectOverlay o env))
    rw [show (getEnvironment : Value) = .vobj [] from rfl, deepMerge_deepMerge_nil]
